import Mathlib

/-!
Verification of the Angular-to-C# call path mapper (src/main.py) against its
natural-language specification.  The Python source is shallowly embedded:
strings are `List Char`, regular-expression scans are implemented as
deterministic matchers (every regex used by the source is backtracking-free
apart from optional groups, which are tried present-first exactly as Python's
engine does), Python dicts are insertion-ordered association lists, and the
per-file `try/except` blocks are modelled by `Option` file contents.
-/

set_option maxHeartbeats 2000000
set_option maxRecDepth 4000

/-! ## Character and string helpers -/

def asciiToLower (c : Char) : Char :=
  if 'A' ≤ c ∧ c ≤ 'Z' then Char.ofNat (c.toNat + 32) else c

def asciiToUpper (c : Char) : Char :=
  if 'a' ≤ c ∧ c ≤ 'z' then Char.ofNat (c.toNat - 32) else c

/-- Python `str.lower()` restricted to ASCII input. -/
def lowerStr (s : List Char) : List Char := s.map asciiToLower

/-- Python `str.upper()` restricted to ASCII input. -/
def upperStr (s : List Char) : List Char := s.map asciiToUpper

/-- Python regex `\w` for ASCII input. -/
def isWordChar (c : Char) : Bool :=
  ('a' ≤ c && c ≤ 'z') || ('A' ≤ c && c ≤ 'Z') || ('0' ≤ c && c ≤ '9') || c = '_'

/-- Python regex `\s` for ASCII input: space, tab, newline, CR, VT, FF. -/
def isSpaceChar (c : Char) : Bool :=
  c = ' ' || c = '\t' || c = '\n' || c = '\r' || c = Char.ofNat 11 || c = Char.ofNat 12

def isAsciiAlpha (c : Char) : Bool := ('a' ≤ c && c ≤ 'z') || ('A' ≤ c && c ≤ 'Z')

def lbraceC : Char := Char.ofNat 123

def rbraceC : Char := Char.ofNat 125

def squoteC : Char := Char.ofNat 39

def dquoteC : Char := Char.ofNat 34

def btickC : Char := Char.ofNat 96

/-- Does `l` occur at the very start of `s`? -/
def begWith : List Char → List Char → Bool
  | [], _ => true
  | _ :: _, [] => false
  | a :: as, b :: bs => a = b && begWith as bs

/-- Python `needle in haystack` substring test. -/
def containsSub (n : List Char) : List Char → Bool
  | [] => n.isEmpty
  | c :: t => begWith n (c :: t) || containsSub n t

/-- Consume the literal `lit` from the front of `s`, or fail. -/
def dropLit (lit s : List Char) : Option (List Char) :=
  if begWith lit s then some (s.drop lit.length) else none

/-- Greedy `p`-class `+` (one or more): the maximal nonempty run, or fail. -/
def takeClass1 (p : Char → Bool) (s : List Char) : Option (List Char × List Char) :=
  let w := s.takeWhile p
  if w.isEmpty then none else some (w, s.dropWhile p)

/-- Greedy `\w+`. -/
def takeWord1 : List Char → Option (List Char × List Char) := takeClass1 isWordChar

/-- Greedy `\s*`. -/
def dropSpacesZ (s : List Char) : List Char := s.dropWhile isSpaceChar

/-- Greedy `\s+`: requires at least one whitespace character. -/
def dropSpaces1 (s : List Char) : Option (List Char) :=
  match s with
  | [] => none
  | c :: t => if isSpaceChar c then some (dropSpacesZ t) else none

/-- Python `str.split(sep)` for a single-character separator. -/
def splitOnChar (sep : Char) : List Char → List (List Char)
  | [] => [[]]
  | c :: rest =>
    if c = sep then [] :: splitOnChar sep rest
    else
      match splitOnChar sep rest with
      | [] => [[c]]
      | h :: t => (c :: h) :: t

/-- Python `str.split(sep, 1)`: `none` when the separator is absent, else the
pieces before and after its first occurrence. -/
def splitFirst (sep : Char) : List Char → Option (List Char × List Char)
  | [] => none
  | c :: t =>
    if c = sep then some ([], t)
    else
      match splitFirst sep t with
      | some (a, b) => some (c :: a, b)
      | none => none

/-- Python `str.strip()` (whitespace both ends). -/
def stripStr (s : List Char) : List Char :=
  ((s.dropWhile isSpaceChar).reverse.dropWhile isSpaceChar).reverse

/-- Python `str.count(c)` for a single character. -/
def countChar (c : Char) (s : List Char) : Nat := (s.filter (fun x => x = c)).length

/-- Worker for `replaceAll`, fueled by the remaining length so the recursion is
structural; the fuel is always sufficient because every step consumes at least
one character. -/
def replGo (needle repl : List Char) : Nat → List Char → List Char
  | 0, s => s
  | _ + 1, [] => []
  | fuel + 1, c :: t =>
    if begWith needle (c :: t) then
      repl ++ replGo needle repl fuel (t.drop (needle.length - 1))
    else c :: replGo needle repl fuel t

/-- Python `str.replace(needle, repl)`: every non-overlapping occurrence,
scanning left to right. -/
def replaceAll (needle repl s : List Char) : List Char :=
  if needle.isEmpty then s else replGo needle repl s.length s

def titleGo (prevAlpha : Bool) : List Char → List Char
  | [] => []
  | c :: t =>
    (if isAsciiAlpha c then (if prevAlpha then asciiToLower c else asciiToUpper c) else c) ::
      titleGo (isAsciiAlpha c) t

/-- Python `str.title()` restricted to ASCII: uppercase every letter that does
not follow a letter, lowercase every other letter. -/
def titleStr (s : List Char) : List Char := titleGo false s

/-- Python `str.endswith(t)`. -/
def endsWithL (t s : List Char) : Bool := begWith t.reverse s.reverse

/-- Python `enumerate(xs, n)`. -/
def enumFrom {α : Type} (n : Nat) : List α → List (Nat × α)
  | [] => []
  | x :: xs => (n, x) :: enumFrom (n + 1) xs

/-! ## Insertion-ordered dictionaries (Python `dict` / `defaultdict(list)`) -/

def dictLookup {α : Type} : List (List Char × α) → List Char → Option α
  | [], _ => none
  | (k2, v) :: rest, k => if k2 = k then some v else dictLookup rest k

/-- Python `d[k] = v`: overwrite in place, or append a fresh key at the end. -/
def dictInsert {α : Type} (k : List Char) (v : α) :
    List (List Char × α) → List (List Char × α)
  | [] => [(k, v)]
  | (k2, v2) :: rest =>
    if k2 = k then (k2, v) :: rest else (k2, v2) :: dictInsert k v rest

/-- Python `defaultdict(list)`: `d[k].append(v)`. -/
def dictAppend {α : Type} (k : List Char) (v : α) :
    List (List Char × List α) → List (List Char × List α)
  | [] => [(k, [v])]
  | (k2, vs) :: rest =>
    if k2 = k then (k2, vs ++ [v]) :: rest else (k2, vs) :: dictAppend k v rest

/-! ## Route matching (`CodeAnalyzer._find_matching_csharp_method`, main.py:412-425) -/

/-- main.py:415 — `url_parts = [part for part in url.split('/') if part and not
part.startswith('{')]`. -/
def urlParts (url : List Char) : List (List Char) :=
  (splitOnChar '/' url).filter (fun p => !p.isEmpty && !(p.headD ' ' = lbraceC))

/-- main.py:421-422 — the per-candidate test the source applies between a call
URL and one backend method name: some retained URL segment, lowercased, is a
substring of the lowercased method name.  This is the entire "route matching"
the source performs; no route template is consulted anywhere. -/
def route_match (url name : List Char) : Bool :=
  (urlParts url).any (fun part => containsSub (lowerStr part) (lowerStr name))

/-! ## Data model (dataclasses of main.py) -/

/-- main.py:25-32 `ServiceCall`. -/
structure ServiceCall where
  service_name : List Char
  method_name : List Char
  file_path : List Char
  line_number : Nat
  call_type : List Char
  deriving DecidableEq, Repr

/-- main.py:35-43 `CSharpMethod`. -/
structure CSharpMethod where
  class_name : List Char
  method_name : List Char
  file_path : List Char
  line_number : Nat
  parameters : List (List Char)
  return_type : List Char
  deriving DecidableEq, Repr

/-- main.py:46-53 `AngularScreen`. -/
structure AngularScreen where
  component_name : List Char
  file_path : List Char
  template_path : Option (List Char)
  service_calls : List ServiceCall
  indirect_calls : List ServiceCall
  deriving DecidableEq, Repr

/-- One entry of a service's `http_calls` list (main.py:319-323). -/
structure HttpCall where
  method : List Char
  url : List Char
  line_number : Nat
  deriving DecidableEq, Repr

/-- One entry of a service's `methods` list (main.py:293-297). -/
structure SvcMethod where
  name : List Char
  return_type : List Char
  line_number : Nat
  deriving DecidableEq, Repr

/-- The dict stored in `self.angular_services[name]` (main.py:140-144). -/
structure ServiceInfo where
  file_path : List Char
  methods : List SvcMethod
  http_calls : List HttpCall
  deriving DecidableEq, Repr

/-- A source file handed to the analyzer: its basename, its full path string,
and its decoded content — `none` models an I/O or decoding failure thrown by
`open`/`read` and caught by the per-file `except` clause. -/
structure TsFile where
  name : List Char
  path : List Char
  content : Option (List Char)
  deriving DecidableEq, Repr

/-- The filesystem queried by `Path.exists` in `_find_template_path`. -/
structure FsEnv where
  fsExists : List Char → Bool

/-! ## Entity-name extraction (main.py:180-198)

The source regex is `export\s+class\s+(\w+)(?:\s+implements|\s+extends|\s*{)`.
Its character classes are pairwise disjoint at every juncture, so Python's
backtracking search is equivalent to the greedy maximal-munch matcher below. -/

/-- Tail `(?:\s+implements|\s+extends|\s*{)` of the declaration regex. -/
def declTail (s : List Char) : Bool :=
  (match dropSpaces1 s with
   | some s1 => begWith "implements".data s1 || begWith "extends".data s1
   | none => false)
  || begWith [lbraceC] (dropSpacesZ s)

/-- Match the declaration regex anchored at the start of `s`; return the
captured class name. -/
def matchDeclAt (s : List Char) : Option (List Char) := do
  let s1 ← dropLit "export".data s
  let s2 ← dropSpaces1 s1
  let s3 ← dropLit "class".data s2
  let s4 ← dropSpaces1 s3
  let (name, s5) ← takeWord1 s4
  if declTail s5 then pure name else none

/-- `re.search` for the declaration regex: the capture at the leftmost
matching position. -/
def searchDecl : List Char → Option (List Char)
  | [] => none
  | c :: t =>
    match matchDeclAt (c :: t) with
    | some n => some n
    | none => searchDecl t

/-- main.py:188 — the filename fallback of `_extract_component_name`. -/
def componentFallbackName (filename : List Char) : List Char :=
  titleStr (replaceAll "-".data "_".data (replaceAll ".component.ts".data [] filename)) ++
    "Component".data

/-- main.py:180-188 `CodeAnalyzer._extract_component_name`. -/
def extract_component_name (content filename : List Char) : List Char :=
  match searchDecl content with
  | some n => n
  | none => componentFallbackName filename

/-- main.py:198 — the filename fallback of `_extract_service_name`. -/
def serviceFallbackName (filename : List Char) : List Char :=
  titleStr (replaceAll "-".data "_".data (replaceAll ".service.ts".data [] filename)) ++
    "Service".data

/-- main.py:190-198 `CodeAnalyzer._extract_service_name`. -/
def extract_service_name (content filename : List Char) : List Char :=
  match searchDecl content with
  | some n => n
  | none => serviceFallbackName filename

/-! ## Template path resolution (main.py:200-214)

`pathlib` operations are modelled for POSIX-style relative paths: `parent`
strips the last `/`-segment (yielding `"."` when there is none), `/` joins and
collapses `"."` and empty segments exactly as `PurePosixPath` does, and
`with_suffix('.html')` replaces the part of the basename after its last dot. -/

def parentPath (p : List Char) : List Char :=
  let segs := splitOnChar '/' p
  if segs.length ≤ 1 then ".".data
  else List.intercalate "/".data (segs.take (segs.length - 1))

def joinPath (p r : List Char) : List Char :=
  List.intercalate "/".data
    ((splitOnChar '/' p ++ splitOnChar '/' r).filter
      (fun seg => !seg.isEmpty && seg ≠ ".".data))

def withSuffixHtml (p : List Char) : List Char :=
  let rev := p.reverse
  let base := rev.takeWhile (fun c => c ≠ '/')
  if '.' ∈ base then
    ((rev.dropWhile (fun c => c ≠ '.')).drop 1).reverse ++ ".html".data
  else p ++ ".html".data

/-- Matcher for `templateUrl:\s*['"`]([^'"`]+)['"`]` anchored at the start. -/
def matchTemplateUrlAt (s : List Char) : Option (List Char) := do
  let s1 ← dropLit "templateUrl:".data s
  let s2 := dropSpacesZ s1
  match s2 with
  | [] => none
  | q :: s3 =>
    if q = squoteC || q = dquoteC || q = btickC then do
      let (url, s4) ← takeClass1 (fun c => !(c = squoteC || c = dquoteC || c = btickC)) s3
      match s4 with
      | [] => none
      | q2 :: _ => if q2 = squoteC || q2 = dquoteC || q2 = btickC then some url else none
    else none

def searchTemplateUrl : List Char → Option (List Char)
  | [] => none
  | c :: t =>
    match matchTemplateUrlAt (c :: t) with
    | some u => some u
    | none => searchTemplateUrl t

/-- main.py:200-214 `CodeAnalyzer._find_template_path`. -/
def find_template_path (env : FsEnv) (componentPath : List Char) (content : List Char) :
    Option (List Char) :=
  match searchTemplateUrl content with
  | some rel =>
    let tp := joinPath (parentPath componentPath) rel
    if env.fsExists tp then some tp
    else
      let hf := withSuffixHtml componentPath
      if env.fsExists hf then some hf else none
  | none =>
    let hf := withSuffixHtml componentPath
    if env.fsExists hf then some hf else none

/-- Generic `re.finditer` skeleton: try `matchAt` at each position, emit the
capture and resume after the match; fueled by the string length (each step
consumes at least one character, so the fuel never runs out). -/
def scanPos {α : Type} (matchAt : List Char → Option (α × List Char)) :
    Nat → List Char → List α
  | 0, _ => []
  | _ + 1, [] => []
  | fuel + 1, c :: t =>
    match matchAt (c :: t) with
    | some (a, rest) => a :: scanPos matchAt fuel rest
    | none => scanPos matchAt fuel t

/-! ## Injected-service detection (main.py:248-277)

`_find_injected_services` first locates the constructor header with
`constructor\s*\([^)]*\)\s*{` (the matched text, group 0), runs the parameter
regex `(?:private|public|protected)?\s*(\w+)\s*:\s*(\w+)` over that text with
`finditer`, keeping pairs whose type ends in `Service`, then runs the
property-injection regex `(\w+)\s*=\s*inject\s*\(\s*(\w+)\s*\)` over the whole
file.  `finditer` is modelled by fueled position-by-position scans; the fuel
starts at the string length and every accepted match consumes at least one
character, so it never runs out. -/

/-- Match `constructor\s*\([^)]*\)\s*{` at the start of `s`; return the
remainder after the match (the matched text is the consumed prefix). -/
def matchCtorAt (s : List Char) : Option (List Char) := do
  let s1 ← dropLit "constructor".data s
  let s2 := dropSpacesZ s1
  let s3 ← dropLit ['('] s2
  let s4 := s3.dropWhile (fun c => c ≠ ')')
  let s5 ← dropLit [')'] s4
  let s6 := dropSpacesZ s5
  dropLit [lbraceC] s6

/-- `re.search` for the constructor regex: the group-0 text (matched prefix)
at the leftmost matching position. -/
def searchCtor : List Char → Option (List Char)
  | [] => none
  | c :: t =>
    match matchCtorAt (c :: t) with
    | some rest => some ((c :: t).take ((c :: t).length - rest.length))
    | none => searchCtor t

/-- Match the parameter regex at the start of `s`.  The optional access
modifier is tried present-first, falling back to absent when the remainder
fails — exactly Python's backtracking on `(?:...)?`. -/
def matchParamCore (s : List Char) : Option ((List Char × List Char) × List Char) := do
  let s1 := dropSpacesZ s
  let (vname, s2) ← takeWord1 s1
  let s3 := dropSpacesZ s2
  let s4 ← dropLit [':'] s3
  let s5 := dropSpacesZ s4
  let (tname, s6) ← takeWord1 s5
  pure ((vname, tname), s6)

def matchParamAt (s : List Char) : Option ((List Char × List Char) × List Char) :=
  match
    (match dropLit "private".data s with
     | some s1 => matchParamCore s1
     | none =>
       match dropLit "public".data s with
       | some s1 => matchParamCore s1
       | none =>
         match dropLit "protected".data s with
         | some s1 => matchParamCore s1
         | none => none) with
  | some r => some r
  | none => matchParamCore s

/-- `re.finditer` for the parameter regex: leftmost matches, resuming after
each match end. -/
def scanParams (fuel : Nat) (s : List Char) : List (List Char × List Char) :=
  scanPos matchParamAt fuel s

/-- Match the property-injection regex `(\w+)\s*=\s*inject\s*\(\s*(\w+)\s*\)`
at the start of `s`. -/
def matchInjectAt (s : List Char) : Option ((List Char × List Char) × List Char) := do
  let (vname, s1) ← takeWord1 s
  let s2 := dropSpacesZ s1
  let s3 ← dropLit ['='] s2
  let s4 := dropSpacesZ s3
  let s5 ← dropLit "inject".data s4
  let s6 := dropSpacesZ s5
  let s7 ← dropLit ['('] s6
  let s8 := dropSpacesZ s7
  let (tname, s9) ← takeWord1 s8
  let s10 := dropSpacesZ s9
  let s11 ← dropLit [')'] s10
  pure ((vname, tname), s11)

def scanInjects (fuel : Nat) (s : List Char) : List (List Char × List Char) :=
  scanPos matchInjectAt fuel s

/-- main.py:248-277 `CodeAnalyzer._find_injected_services`. -/
def find_injected_services (content : List Char) : List (List Char × List Char) :=
  let fromCtor :=
    match searchCtor content with
    | some ctorText =>
      ((scanParams ctorText.length ctorText).filter
        (fun p => endsWithL "Service".data p.2)).foldl
        (fun d p => dictInsert p.1 p.2 d) []
    | none => []
  (scanInjects content.length content).foldl (fun d p => dictInsert p.1 p.2 d) fromCtor

/-! ## Service-call extraction from components (main.py:216-246)

For each line and each injected `(variable, serviceType)` pair the source runs
two `finditer` patterns in order: `\b{var}\.(\w+)\s*\(` and then
`this\.{var}\.(\w+)\s*\(`.  Note the second pattern's matches are also matched
by the first (the `.` before `var` is a word boundary), so a call written
`this.svc.m(...)` is recorded twice — this is faithful to the source. -/

/-- Match `{var}\.(\w+)\s*\(` at the start of `s` (the caller checks the word
boundary); returns the captured method name and the remainder after `(`. -/
def matchVarCallAt (var s : List Char) : Option (List Char × List Char) := do
  let s1 ← dropLit var s
  let s2 ← dropLit ['.'] s1
  let (m, s3) ← takeWord1 s2
  let s4 := dropSpacesZ s3
  let s5 ← dropLit ['('] s4
  pure (m, s5)

/-- The `\b` assertion before `{var}`: the match only fires when the previous
character (`none` at the line start) is not a word character. -/
def matchVarCallB (var : List Char) (prev : Option Char) (s : List Char) :
    Option (List Char × List Char) :=
  match prev with
  | none => matchVarCallAt var s
  | some p => if isWordChar p then none else matchVarCallAt var s

/-- `re.finditer` for `\b{var}\.(\w+)\s*\(`: `prev` is the character before
the current position for the `\b` test; after a match the scan resumes right
after the consumed `(`. -/
def scanVarCalls (var : List Char) : Nat → Option Char → List Char → List (List Char)
  | 0, _, _ => []
  | _ + 1, _, [] => []
  | fuel + 1, prev, c :: t =>
    match matchVarCallB var prev (c :: t) with
    | some (m, rest) => m :: scanVarCalls var fuel (some '(') rest
    | none => scanVarCalls var fuel (some c) t

def matchThisCallAt (var s : List Char) : Option (List Char × List Char) := do
  let s1 ← dropLit "this.".data s
  matchVarCallAt var s1

/-- `re.finditer` for `this\.{var}\.(\w+)\s*\(` (no boundary assertion). -/
def scanThisCalls (var : List Char) (fuel : Nat) (s : List Char) : List (List Char) :=
  scanPos (matchThisCallAt var) fuel s

/-- main.py:216-246 `CodeAnalyzer._extract_service_calls`. -/
def extract_service_calls (content file_path : List Char) : List ServiceCall :=
  let lines := splitOnChar '\n' content
  let injected := find_injected_services content
  (enumFrom 1 lines).flatMap (fun ln =>
    injected.flatMap (fun sv =>
      (scanVarCalls sv.1 ln.2.length none ln.2 ++ scanThisCalls sv.1 ln.2.length ln.2).map
        (fun m =>
          { service_name := sv.2, method_name := m, file_path := file_path,
            line_number := ln.1, call_type := "direct".data })))

/-! ## Service-method extraction (main.py:279-299)

`re.match(r'\s*(\w+)\s*\([^)]*\)\s*:\s*(\w+|Observable<\w+>|Promise<\w+>)',
line.strip())` — anchored at the start of the stripped line.  The return-type
alternation tries `\w+` first; since the other alternatives also begin with
word characters, `\w+` wins whenever any alternative could match. -/

def matchSvcMethodAt (s : List Char) : Option (List Char × List Char) := do
  let s1 := dropSpacesZ s
  let (name, s2) ← takeWord1 s1
  let s3 := dropSpacesZ s2
  let s4 ← dropLit ['('] s3
  let s5 := s4.dropWhile (fun c => c ≠ ')')
  let s6 ← dropLit [')'] s5
  let s7 := dropSpacesZ s6
  let s8 ← dropLit [':'] s7
  let s9 := dropSpacesZ s8
  let (rt, _) ← takeWord1 s9
  pure (name, rt)

/-- main.py:279-299 `CodeAnalyzer._extract_service_methods`. -/
def extract_service_methods (content : List Char) : List SvcMethod :=
  (enumFrom 1 (splitOnChar '\n' content)).flatMap (fun ln =>
    match matchSvcMethodAt (stripStr ln.2) with
    | some (name, rt) =>
      if name = "if".data ∨ name = "for".data ∨ name = "while".data ∨
          name = "switch".data ∨ name = "catch".data ∨ name = "constructor".data then []
      else [{ name := name, return_type := rt, line_number := ln.1 }]
    | none => [])

/-! ## HTTP-call extraction (main.py:301-325)

Two `finditer` patterns per line, in order:
`this\.http\.(get|post|put|delete|patch)\s*\(\s*['"`]([^'"`]+)['"`]` and the
same without the `this\.` prefix.  The second also matches inside text matched
by the first, so `this.http.get('u')` is recorded twice — faithful to the
source. -/

def isQuoteC (c : Char) : Bool := c = squoteC || c = dquoteC || c = btickC

/-- The verb alternation `(get|post|put|delete|patch)`, tried in order. -/
def pickVerb (s : List Char) : Option (List Char × List Char) :=
  match dropLit "get".data s with
  | some r => some ("get".data, r)
  | none =>
    match dropLit "post".data s with
    | some r => some ("post".data, r)
    | none =>
      match dropLit "put".data s with
      | some r => some ("put".data, r)
      | none =>
        match dropLit "delete".data s with
        | some r => some ("delete".data, r)
        | none =>
          match dropLit "patch".data s with
          | some r => some ("patch".data, r)
          | none => none

/-- The tail `\s*\(\s*['"`]([^'"`]+)['"`]` of the http-call regexes: the
quoted URL (the closing quote may be any of the three quote characters, as in
the source's character class). -/
def matchQuotedUrl (s : List Char) : Option (List Char × List Char) := do
  let s1 ← dropLit ['('] (dropSpacesZ s)
  match dropSpacesZ s1 with
  | [] => none
  | q :: s2 =>
    if isQuoteC q then do
      let (url, s3) ← takeClass1 (fun c => !isQuoteC c) s2
      match s3 with
      | [] => none
      | q2 :: s4 => if isQuoteC q2 then some (url, s4) else none
    else none

/-- Match `http\.(verb)\s*\(\s*['"`]([^'"`]+)['"`]` at the start of `s`. -/
def matchHttpCore (s : List Char) : Option ((List Char × List Char) × List Char) := do
  let s1 ← dropLit "http.".data s
  let (verb, s2) ← pickVerb s1
  let (url, s3) ← matchQuotedUrl s2
  pure ((verb, url), s3)

def matchHttpThisAt (s : List Char) : Option ((List Char × List Char) × List Char) := do
  let s1 ← dropLit "this.".data s
  matchHttpCore s1

def scanHttpThis (fuel : Nat) (s : List Char) : List (List Char × List Char) :=
  scanPos matchHttpThisAt fuel s

def scanHttpBare (fuel : Nat) (s : List Char) : List (List Char × List Char) :=
  scanPos matchHttpCore fuel s

/-- main.py:301-325 `CodeAnalyzer._extract_http_calls`. -/
def extract_http_calls (content : List Char) : List HttpCall :=
  (enumFrom 1 (splitOnChar '\n' content)).flatMap (fun ln =>
    (scanHttpThis ln.2.length ln.2 ++ scanHttpBare ln.2.length ln.2).map
      (fun p => { method := upperStr p.1, url := p.2, line_number := ln.1 }))

/-! ## C# class/method extraction (main.py:327-395)

Class regex: `(?:public|internal|private)?\s*class\s+(\w+)`.
Method regex: `(?:public|private|protected|internal)?\s*(?:static\s+)?(?:async\s+)?(\w+(?:<[\w,\s]+>)?)\s+(\w+)\s*\([^)]*\)`.
Every optional group is tried present-first with fallback to absent (Python's
backtracking order); the greedy pieces never need to shrink because each is
followed by a character its class excludes. -/

def dropClassMod (s : List Char) : Option (List Char) :=
  match dropLit "public".data s with
  | some r => some r
  | none =>
    match dropLit "internal".data s with
    | some r => some r
    | none => dropLit "private".data s

def classCore (s : List Char) : Option (List Char) := do
  let s1 ← dropLit "class".data s
  let s2 ← dropSpaces1 s1
  let (n, _) ← takeWord1 s2
  pure n

def matchClassAt (s : List Char) : Option (List Char) :=
  match
    (match dropClassMod s with
     | some s1 => classCore (dropSpacesZ s1)
     | none => none) with
  | some n => some n
  | none => classCore (dropSpacesZ s)

def searchClass : List Char → Option (List Char)
  | [] => none
  | c :: t =>
    match matchClassAt (c :: t) with
    | some n => some n
    | none => searchClass t

def dropMethodMod (s : List Char) : Option (List Char) :=
  match dropLit "public".data s with
  | some r => some r
  | none =>
    match dropLit "private".data s with
    | some r => some r
    | none =>
      match dropLit "protected".data s with
      | some r => some r
      | none => dropLit "internal".data s

/-- The part of the method regex after the return type: `\s+(\w+)\s*\([^)]*\)`. -/
def methodAfterType (rt s : List Char) : Option (List Char × List Char) := do
  let s1 ← dropSpaces1 s
  let (name, s2) ← takeWord1 s1
  let s3 := dropSpacesZ s2
  let s4 ← dropLit ['('] s3
  let s5 := s4.dropWhile (fun c => c ≠ ')')
  let _ ← dropLit [')'] s5
  pure (rt, name)

/-- `(\w+(?:<[\w,\s]+>)?)` followed by the rest of the method regex. -/
def methodCore (s : List Char) : Option (List Char × List Char) :=
  match takeWord1 s with
  | none => none
  | some (t1, s1) =>
    match
      (do
        let s2 ← dropLit ['<'] s1
        let (g, s3) ← takeClass1 (fun c => isWordChar c || c = ',' || isSpaceChar c) s2
        let s4 ← dropLit ['>'] s3
        methodAfterType (t1 ++ '<' :: (g ++ ['>'])) s4) with
    | some r => some r
    | none => methodAfterType t1 s1

def tryAsync (s : List Char) : Option (List Char × List Char) :=
  match
    (do
      let s1 ← dropLit "async".data s
      let s2 ← dropSpaces1 s1
      methodCore s2) with
  | some r => some r
  | none => methodCore s

def tryStatic (s : List Char) : Option (List Char × List Char) :=
  match
    (do
      let s1 ← dropLit "static".data s
      let s2 ← dropSpaces1 s1
      tryAsync s2) with
  | some r => some r
  | none => tryAsync s

def matchMethodAt (s : List Char) : Option (List Char × List Char) :=
  match
    (match dropMethodMod s with
     | some s1 => tryStatic (dropSpacesZ s1)
     | none => none) with
  | some r => some r
  | none => tryStatic (dropSpacesZ s)

def searchMethod : List Char → Option (List Char × List Char)
  | [] => none
  | c :: t =>
    match matchMethodAt (c :: t) with
    | some r => some r
    | none => searchMethod t

/-- `re.search(r'\(([^)]*)\)', line)`: the text between the first `(` that is
followed by a `)` and that `)`. -/
def searchParenGroup : List Char → Option (List Char)
  | [] => none
  | c :: t =>
    if c = '(' then
      if (t.dropWhile (fun x => x ≠ ')')).isEmpty then searchParenGroup t
      else some (t.takeWhile (fun x => x ≠ ')'))
    else searchParenGroup t

/-- main.py:372-380 — parameter list extraction from a method line. -/
def extractParams (stripped : List Char) : List (List Char) :=
  match searchParenGroup stripped with
  | some inner =>
    if (stripStr inner).isEmpty then []
    else ((splitOnChar ',' inner).map stripStr).filter (fun p => !p.isEmpty)
  | none => []

/-- One method dict of `_extract_csharp_classes` (main.py:382-387). -/
structure CsMethodInfo where
  name : List Char
  return_type : List Char
  parameters : List (List Char)
  line_number : Nat
  deriving DecidableEq, Repr

/-- One class dict of `_extract_csharp_classes` (main.py:347-351). -/
structure CsClassAcc where
  name : List Char
  line_number : Nat
  methods : List CsMethodInfo
  deriving DecidableEq, Repr

/-- The loop state of `_extract_csharp_classes`: finished classes,
`current_class`, `brace_count`, `in_class`. -/
structure CsScanState where
  classes : List CsClassAcc
  current : Option CsClassAcc
  brace : Int
  inClass : Bool
  deriving DecidableEq, Repr

/-- One iteration of the line loop of `_extract_csharp_classes`
(main.py:336-393), in source order: skip blank/comment lines; open a class on
a class-declaration match when not already inside one (resetting the brace
counter); add the line's brace balance (counted on the unstripped line); record
a method match unless the line mentions `class`/`interface`/`enum` or the name
is the constructor or a control keyword; close the class when the brace counter
is non-positive. -/
def csProcessLine (st : CsScanState) (ln : Nat × List Char) : CsScanState :=
  let stripped := stripStr ln.2
  if stripped.isEmpty || begWith "//".data stripped || begWith "*".data stripped then st
  else
    let cm := searchClass stripped
    let st1 : CsScanState :=
      match cm with
      | some cname =>
        if !st.inClass then
          { st with current := some { name := cname, line_number := ln.1, methods := [] },
                    inClass := true, brace := 0 }
        else st
      | none => st
    let brace2 : Int :=
      st1.brace + ((countChar lbraceC ln.2 : Int) - (countChar rbraceC ln.2 : Int))
    let cur2 : Option CsClassAcc :=
      if st1.inClass then
        match st1.current with
        | some cc =>
          match searchMethod stripped with
          | some (rt, mn) =>
            if !(containsSub "class".data stripped || containsSub "interface".data stripped ||
                containsSub "enum".data stripped) then
              if mn ≠ cc.name ∧ mn ≠ "if".data ∧ mn ≠ "for".data ∧ mn ≠ "while".data ∧
                  mn ≠ "switch".data then
                some { cc with methods := cc.methods ++
                  [{ name := mn, return_type := rt, parameters := extractParams stripped,
                     line_number := ln.1 }] }
              else some cc
            else some cc
          | none => some cc
        | none => none
      else st1.current
    if st1.inClass ∧ brace2 ≤ 0 ∧ cur2.isSome then
      match cur2 with
      | some cc => { classes := st1.classes ++ [cc], current := none, brace := brace2,
                     inClass := false }
      | none => { st1 with current := cur2, brace := brace2 }
    else { st1 with current := cur2, brace := brace2 }

/-- main.py:327-395 `CodeAnalyzer._extract_csharp_classes` (the `file_path`
argument of the source is unused by its body and omitted here). -/
def extract_csharp_classes (content : List Char) : List CsClassAcc :=
  ((enumFrom 1 (splitOnChar '\n' content)).foldl csProcessLine
    { classes := [], current := none, brace := 0, inClass := false }).classes

/-! ## Per-file scan loops (main.py:93-178)

Each loop has the same shape: skip files matching the test filter, read the
file (a failure is caught, one warning is logged, the loop continues), and
update an accumulating table.  `runScan` is that shared skeleton; the result
is the final table together with the number of warnings logged. -/

def runScan {σ : Type} (scanned : TsFile → Bool) (upd : TsFile → List Char → σ → σ) :
    List TsFile → σ × Nat → σ × Nat
  | [], st => st
  | f :: fs, (tbl, w) =>
    if scanned f then
      match f.content with
      | some c => runScan scanned upd fs (upd f c tbl, w)
      | none => runScan scanned upd fs (tbl, w + 1)
    else runScan scanned upd fs (tbl, w)

/-- main.py:98 / main.py:129 — the Angular test-file filter: process the file
unless (not include_tests) and (`.spec.` occurs in the path or `test` occurs
in the lowercased path). -/
def angularScanned (include_tests : Bool) (f : TsFile) : Bool :=
  include_tests ||
    !(containsSub ".spec.".data f.path || containsSub "test".data (lowerStr f.path))

/-- main.py:155 — the C# test-file filter. -/
def csharpScanned (include_tests : Bool) (f : TsFile) : Bool :=
  include_tests ||
    !(containsSub "test".data (lowerStr f.path) || containsSub "spec".data (lowerStr f.path))

/-- The `AngularScreen` built for one component file (main.py:105-117). -/
def componentScreen (env : FsEnv) (f : TsFile) (content : List Char) : AngularScreen :=
  { component_name := extract_component_name content f.name,
    file_path := f.path,
    template_path := find_template_path env f.path content,
    service_calls := extract_service_calls content f.path,
    indirect_calls := [] }

def componentUpd (env : FsEnv) (f : TsFile) (content : List Char)
    (tbl : List (List Char × AngularScreen)) : List (List Char × AngularScreen) :=
  dictInsert (extract_component_name content f.name) (componentScreen env f content) tbl

/-- main.py:93-122 `CodeAnalyzer._analyze_angular_components`: the
`angular_components` table and the warning count. -/
def analyze_angular_components (env : FsEnv) (include_tests : Bool) (files : List TsFile) :
    List (List Char × AngularScreen) × Nat :=
  runScan (angularScanned include_tests) (componentUpd env) files ([], 0)

/-- The service-info dict built for one service file (main.py:140-144). -/
def serviceInfoOf (f : TsFile) (content : List Char) : ServiceInfo :=
  { file_path := f.path,
    methods := extract_service_methods content,
    http_calls := extract_http_calls content }

def serviceUpd (f : TsFile) (content : List Char) (tbl : List (List Char × ServiceInfo)) :
    List (List Char × ServiceInfo) :=
  dictInsert (extract_service_name content f.name) (serviceInfoOf f content) tbl

/-- main.py:124-147 `CodeAnalyzer._analyze_angular_services`. -/
def analyze_angular_services (include_tests : Bool) (files : List TsFile) :
    List (List Char × ServiceInfo) × Nat :=
  runScan (angularScanned include_tests) serviceUpd files ([], 0)

/-- main.py:162-175 — fold one file's extracted classes into the
`csharp_methods` defaultdict. -/
def csharpUpd (f : TsFile) (content : List Char)
    (tbl : List (List Char × List CSharpMethod)) : List (List Char × List CSharpMethod) :=
  (extract_csharp_classes content).foldl
    (fun t cls =>
      cls.methods.foldl
        (fun t2 m =>
          dictAppend cls.name
            { class_name := cls.name, method_name := m.name, file_path := f.path,
              line_number := m.line_number, parameters := m.parameters,
              return_type := m.return_type } t2)
        t)
    tbl

/-- main.py:149-178 `CodeAnalyzer._analyze_csharp_files`. -/
def analyze_csharp_files (include_tests : Bool) (files : List TsFile) :
    List (List Char × List CSharpMethod) × Nat :=
  runScan (csharpScanned include_tests) csharpUpd files ([], 0)

/-! ## URL-to-method matching over the method table (main.py:412-425) -/

/-- Inner loop of `_find_matching_csharp_method`: the first method of the
class whose name passes the per-candidate test. -/
def findMethodMatch (cname : List Char) (parts : List (List Char)) :
    List CSharpMethod → Option (List Char)
  | [] => none
  | m :: rest =>
    if parts.any (fun part => containsSub (lowerStr part) (lowerStr m.method_name)) then
      some (cname ++ '.' :: m.method_name)
    else findMethodMatch cname parts rest

/-- Outer loop of `_find_matching_csharp_method`: only classes whose lowercased
name contains `controller` are considered, in table order. -/
def findClassMatch (parts : List (List Char)) :
    List (List Char × List CSharpMethod) → Option (List Char)
  | [] => none
  | (cname, ms) :: rest =>
    if containsSub "controller".data (lowerStr cname) then
      match findMethodMatch cname parts ms with
      | some r => some r
      | none => findClassMatch parts rest
    else findClassMatch parts rest

/-- main.py:412-425 `CodeAnalyzer._find_matching_csharp_method`.  The
`http_method` argument is accepted and ignored, exactly as in the source. -/
def find_matching_csharp_method (tbl : List (List Char × List CSharpMethod))
    (url http_method : List Char) : Option (List Char) :=
  findClassMatch (urlParts url) tbl

/-- main.py:397-410 `CodeAnalyzer._map_service_calls`: the `service_mappings`
dict. -/
def map_service_calls (services : List (List Char × ServiceInfo))
    (cs : List (List Char × List CSharpMethod)) : List (List Char × List Char) :=
  services.foldl
    (fun acc p =>
      p.2.http_calls.foldl
        (fun acc2 hc =>
          match find_matching_csharp_method cs hc.url hc.method with
          | some m =>
            dictInsert (p.1 ++ '.' :: (hc.method ++ '_' :: hc.url)) m acc2
          | none => acc2)
        acc)
    []

/-! ## Call-path resolution (main.py:427-503) -/

/-- main.py:453-474 `CodeAnalyzer._find_indirect_calls`: one `indirect`
record per (direct call, http call of the called service) pair. -/
def find_indirect_calls (services : List (List Char × ServiceInfo))
    (component : AngularScreen) : List ServiceCall :=
  component.service_calls.flatMap (fun dc =>
    match dictLookup services dc.service_name with
    | some info =>
      info.http_calls.map (fun hc =>
        { service_name := dc.service_name ++ '.' :: dc.method_name,
          method_name := hc.method ++ ' ' :: hc.url,
          file_path := info.file_path,
          line_number := hc.line_number,
          call_type := "indirect".data })
    | none => [])

/-- One mapping dict of `_get_csharp_mappings` (main.py:492-500). -/
structure CsMapping where
  csharp_class : List Char
  csharp_method : List Char
  file_path : List Char
  line_number : Nat
  parameters : List (List Char)
  return_type : List Char
  angular_call : List Char
  deriving DecidableEq, Repr

def findFirstMethodNamed (mname : List Char) : List CSharpMethod → Option CSharpMethod
  | [] => none
  | m :: rest => if m.method_name = mname then some m else findFirstMethodNamed mname rest

/-- main.py:476-503 `CodeAnalyzer._get_csharp_mappings`.  The inner
`split('.', 1)` of the match string cannot fail because the match is always
built as `class.method`. -/
def get_csharp_mappings (cs : List (List Char × List CSharpMethod))
    (component : AngularScreen) : List CsMapping :=
  component.indirect_calls.flatMap (fun ic =>
    if ic.call_type = "indirect".data then
      match splitFirst ' ' ic.method_name with
      | some (hm, url) =>
        match find_matching_csharp_method cs url hm with
        | some cm =>
          match splitFirst '.' cm with
          | some (cname, mname) =>
            match findFirstMethodNamed mname ((dictLookup cs cname).getD []) with
            | some m =>
              [{ csharp_class := cname, csharp_method := mname, file_path := m.file_path,
                 line_number := m.line_number, parameters := m.parameters,
                 return_type := m.return_type, angular_call := ic.method_name }]
            | none => []
          | none => []
        | none => []
      | none => []
    else [])

/-- The per-component entry of the results dict (main.py:443-449). -/
structure ComponentResult where
  file_path : List Char
  template_path : Option (List Char)
  direct_calls : List ServiceCall
  indirect_calls : List ServiceCall
  csharp_mappings : List CsMapping
  deriving DecidableEq, Repr

/-- The `summary` entry of the results dict (main.py:431-435). -/
structure Summary where
  total_components : Nat
  total_services : Nat
  total_csharp_classes : Nat
  deriving DecidableEq, Repr

/-- The dict returned by `analyze` (main.py:429-451). -/
structure AnalysisResults where
  components : List (List Char × ComponentResult)
  summary : Summary
  deriving DecidableEq, Repr

/-- The analyzer state after the extraction phases: the fields set by
`CodeAnalyzer.__init__` that the resolution phase consumes, including the
stored `max_depth` (main.py:59-71).  `max_depth` is carried because the source
stores it; whether anything reads it is settled by the theorems below. -/
structure AnalyzerState where
  max_depth : Nat
  include_tests : Bool
  angular_components : List (List Char × AngularScreen)
  angular_services : List (List Char × ServiceInfo)
  csharp_methods : List (List Char × List CSharpMethod)
  deriving DecidableEq, Repr

/-- main.py:427-451 `CodeAnalyzer._build_call_mappings`: for each component,
compute its indirect calls, store them on the component, and emit the
per-component result with its C# mappings. -/
def build_call_mappings (st : AnalyzerState) : AnalysisResults :=
  { summary :=
      { total_components := st.angular_components.length,
        total_services := st.angular_services.length,
        total_csharp_classes := st.csharp_methods.length },
    components :=
      st.angular_components.map (fun p =>
        let ind := find_indirect_calls st.angular_services p.2
        (p.1,
          { file_path := p.2.file_path,
            template_path := p.2.template_path,
            direct_calls := p.2.service_calls,
            indirect_calls := ind,
            csharp_mappings :=
              get_csharp_mappings st.csharp_methods { p.2 with indirect_calls := ind } })) }

/-- The tunables `CodeAnalyzer.__init__` receives (main.py:59-65); the path
and output-format arguments configure the out-of-scope collaborators and are
omitted. -/
structure AnalyzerConfig where
  max_depth : Nat
  include_tests : Bool
  deriving DecidableEq, Repr

/-- The file lists the (external) directory traversal feeds to the three
extraction passes. -/
structure AnalyzerInput where
  componentFiles : List TsFile
  serviceFiles : List TsFile
  csharpFiles : List TsFile
  deriving DecidableEq, Repr

/-- Everything observable at the end of a run: the returned results dict, the
total number of warnings logged, and the residual `service_mappings` state. -/
structure FinalState where
  results : AnalysisResults
  warnings : Nat
  service_mappings : List (List Char × List Char)
  deriving DecidableEq, Repr

/-- main.py:73-91 `CodeAnalyzer.analyze`: the full pipeline. -/
def analyze (cfg : AnalyzerConfig) (env : FsEnv) (inp : AnalyzerInput) : FinalState :=
  let comps := analyze_angular_components env cfg.include_tests inp.componentFiles
  let svcs := analyze_angular_services cfg.include_tests inp.serviceFiles
  let cs := analyze_csharp_files cfg.include_tests inp.csharpFiles
  let mappings := map_service_calls svcs.1 cs.1
  let st : AnalyzerState :=
    { max_depth := cfg.max_depth, include_tests := cfg.include_tests,
      angular_components := comps.1, angular_services := svcs.1, csharp_methods := cs.1 }
  { results := build_call_mappings st,
    warnings := comps.2 + svcs.2 + cs.2,
    service_mappings := mappings }

/-! ## Spec-side definitions

These follow the wording of the specification (not the source) and exist only
to be compared with the source-derived definitions above. -/

/-- Spec §4.2: trim leading/trailing separators. -/
def trimSep (s : List Char) : List Char :=
  ((s.dropWhile (fun c => c = '/')).reverse.dropWhile (fun c => c = '/')).reverse

/-- Spec §4.2: a bracket- or brace-delimited placeholder segment. -/
def placeholderSeg (seg : List Char) : Bool :=
  !seg.isEmpty &&
    ((seg.headD ' ' = lbraceC && seg.getLastD ' ' = rbraceC) ||
     (seg.headD ' ' = '[' && seg.getLastD ' ' = ']'))

/-- Spec §4.2: normalize by trimming separators, case-folding, and replacing
every placeholder segment with a single wildcard token. -/
def specNormalize (s : List Char) : List Char :=
  List.intercalate "/".data
    ((splitOnChar '/' (trimSep s)).map
      (fun seg => if placeholderSeg seg then "*".data else lowerStr seg))

/-- Spec §4.2 `matches(callPath, routeTemplate)`: equal after normalization,
or either normalized string a substring of the other. -/
def spec_matches (a b : List Char) : Bool :=
  let na := specNormalize a
  let nb := specNormalize b
  na = nb || containsSub na nb || containsSub nb na

/-- Spec §3 / glossary: a chain element is a network-call hop when it has the
shape `VERB path` for one of the recorded HTTP verbs. -/
def isNetworkHopStr (s : List Char) : Bool :=
  ["GET".data, "POST".data, "PUT".data, "DELETE".data, "PATCH".data].any
    (fun v => begWith (v ++ [' ']) s)

/-- The chain the spec ascribes to an emitted direct record: starting UI
entity followed by the collaborator invocation `Service.method`. -/
def chainOfDirect (componentName : List Char) (r : ServiceCall) : List (List Char) :=
  [componentName, r.service_name ++ '.' :: r.method_name]

/-- The chain the spec ascribes to an emitted indirect record: the starting UI
entity, the collaborator invocation, and the network hop. -/
def chainOfIndirect (componentName : List Char) (r : ServiceCall) : List (List Char) :=
  [componentName, r.service_name, r.method_name]

/-- Network-call hops of a chain. -/
def networkHops (chain : List (List Char)) : Nat :=
  (chain.filter isNetworkHopStr).length

/-- Collaborator-invocation hops of a chain: elements after the starting
entity that are not network-call hops. -/
def uiCollabHops (chain : List (List Char)) : Nat :=
  ((chain.drop 1).filter (fun h => !isNetworkHopStr h)).length

/-! ## Concrete scenario (spec §8 end-to-end indirect scenario)

`OrderScreen` invokes `OrderService.submit`; `OrderService` issues
`POST /orders`; `OrdersController` declares operation `Create`.  The state
below is the analyzer state those entities produce. -/

def demoScreen : AngularScreen :=
  { component_name := "OrderScreen".data,
    file_path := "app/order-screen.component.ts".data,
    template_path := none,
    service_calls :=
      [{ service_name := "OrderService".data, method_name := "submit".data,
         file_path := "app/order-screen.component.ts".data, line_number := 5,
         call_type := "direct".data }],
    indirect_calls := [] }

def demoServices : List (List Char × ServiceInfo) :=
  [("OrderService".data,
    { file_path := "app/order.service.ts".data,
      methods := [{ name := "submit".data, return_type := "Observable".data,
                    line_number := 3 }],
      http_calls := [{ method := "POST".data, url := "/orders".data, line_number := 10 }] })]

def demoCsharp : List (List Char × List CSharpMethod) :=
  [("OrdersController".data,
    [{ class_name := "OrdersController".data, method_name := "Create".data,
       file_path := "api/OrdersController.cs".data, line_number := 8,
       parameters := ["OrderDto dto".data], return_type := "IActionResult".data }])]

def demoState (d : Nat) : AnalyzerState :=
  { max_depth := d, include_tests := false,
    angular_components := [("OrderScreen".data, demoScreen)],
    angular_services := demoServices,
    csharp_methods := demoCsharp }

/-- The single indirect record `_find_indirect_calls` emits for the scenario. -/
def demoIndirectRecord : ServiceCall :=
  { service_name := "OrderService.submit".data, method_name := "POST /orders".data,
    file_path := "app/order.service.ts".data, line_number := 10,
    call_type := "indirect".data }

/-! ## Concrete C# duplicate-class inputs (backend name collision) -/

def csFileA : TsFile :=
  { name := "A.cs".data, path := "api/A.cs".data,
    content := some ("public class FooController \x7b\n    public int GetA() \x7b \x7d\n\x7d").data }

def csFileB : TsFile :=
  { name := "B.cs".data, path := "api/B.cs".data,
    content := some ("public class FooController \x7b\n    public int GetB() \x7b \x7d\n\x7d").data }

def getARecord : CSharpMethod :=
  { class_name := "FooController".data, method_name := "GetA".data,
    file_path := "api/A.cs".data, line_number := 2, parameters := [],
    return_type := "int".data }

def getBRecord : CSharpMethod :=
  { class_name := "FooController".data, method_name := "GetB".data,
    file_path := "api/B.cs".data, line_number := 2, parameters := [],
    return_type := "int".data }

/-! ## Further concrete inputs used by witnesses and counterexamples -/

/-- A filesystem on which no template file exists. -/
def noFsEnv : FsEnv := { fsExists := fun _ => false }

/-- A component file whose text contains no recognizable declaration. -/
def emptyTsFile : TsFile :=
  { name := "foo-bar.component.ts".data, path := "app/foo-bar.component.ts".data,
    content := some [] }

/-- A component file whose read fails. -/
def badFile : TsFile :=
  { name := "x.component.ts".data, path := "app/x.component.ts".data, content := none }

def dupContent1 : List Char := ("export class Dup \x7b \x7d").data

def dupContent2 : List Char := ("export class Dup extends Base \x7b \x7d").data

/-- Two component files declaring the same entity name `Dup`. -/
def dupFile1 : TsFile :=
  { name := "dup.component.ts".data, path := "app/dup.component.ts".data,
    content := some dupContent1 }

def dupFile2 : TsFile :=
  { name := "dup2.component.ts".data, path := "app/dup2.component.ts".data,
    content := some dupContent2 }

/-! ## General lemmas about the string helpers -/

theorem begWith_iff (l s : List Char) : begWith l s = true ↔ ∃ r, s = l ++ r := by
  induction l generalizing s with
  | nil =>
    simp [begWith]
  | cons a as ih =>
    cases s with
    | nil =>
      simp [begWith]
    | cons b bs =>
      simp only [begWith, Bool.and_eq_true, decide_eq_true_eq, ih]
      constructor
      · rintro ⟨rfl, r, rfl⟩
        exact ⟨r, rfl⟩
      · rintro ⟨r, h⟩
        injection h with h1 h2
        exact ⟨h1.symm, r, h2⟩

theorem containsSub_iff (n h : List Char) :
    containsSub n h = true ↔ ∃ l r, h = l ++ n ++ r := by
  induction h with
  | nil =>
    simp only [containsSub, List.isEmpty_iff]
    constructor
    · rintro rfl
      exact ⟨[], [], rfl⟩
    · rintro ⟨l, r, hlr⟩
      rcases List.append_eq_nil.mp hlr.symm with ⟨h1, h2⟩
      rcases List.append_eq_nil.mp h1 with ⟨-, h3⟩
      exact h3
  | cons c t ih =>
    simp only [containsSub, Bool.or_eq_true, ih, begWith_iff]
    constructor
    · rintro (⟨r, hr⟩ | ⟨l, r, rfl⟩)
      · exact ⟨[], r, by simpa using hr⟩
      · exact ⟨c :: l, r, rfl⟩
    · rintro ⟨l, r, hl⟩
      cases l with
      | nil =>
        left
        exact ⟨r, by simpa using hl⟩
      | cons x xs =>
        right
        injection hl with h1 h2
        exact ⟨xs, r, h2⟩

theorem mem_of_begWith {l s : List Char} (h : begWith l s = true) : ∀ c ∈ l, c ∈ s := by
  rcases (begWith_iff l s).mp h with ⟨r, rfl⟩
  intro c hc
  exact List.mem_append_left r hc

theorem splitOnChar_head (sep : Char) :
    ∀ s h t, splitOnChar sep s = h :: t → ∃ r, s = h ++ r := by
  intro s
  induction s with
  | nil =>
    intro h t hst
    simp only [splitOnChar] at hst
    injection hst with h1 h2
    exact ⟨[], by simp [h1.symm]⟩
  | cons c rest ih =>
    intro h t hst
    by_cases hc : c = sep
    · simp only [splitOnChar, if_pos hc] at hst
      injection hst with h1 h2
      exact ⟨c :: rest, by simp [h1.symm]⟩
    · simp only [splitOnChar, if_neg hc] at hst
      cases hr : splitOnChar sep rest with
      | nil =>
        rw [hr] at hst
        injection hst with h1 h2
        exact ⟨rest, by simp [h1.symm]⟩
      | cons h2 t2 =>
        rw [hr] at hst
        injection hst with hh ht
        rcases ih h2 t2 hr with ⟨r, hr2⟩
        exact ⟨r, by simp [hh.symm, hr2]⟩

theorem mem_splitOnChar (sep : Char) :
    ∀ s p, p ∈ splitOnChar sep s → ∃ l r, s = l ++ p ++ r := by
  intro s
  induction s with
  | nil =>
    intro p hp
    simp only [splitOnChar, List.mem_singleton] at hp
    exact ⟨[], [], by simp [hp]⟩
  | cons c rest ih =>
    intro p hp
    by_cases hc : c = sep
    · simp only [splitOnChar, if_pos hc] at hp
      rcases List.mem_cons.mp hp with rfl | hmem
      · exact ⟨[], c :: rest, by simp⟩
      · rcases ih p hmem with ⟨l, r, hrest⟩
        exact ⟨c :: l, r, by simp [hrest]⟩
    · simp only [splitOnChar, if_neg hc] at hp
      cases hr : splitOnChar sep rest with
      | nil =>
        rw [hr] at hp
        simp only [List.mem_singleton] at hp
        exact ⟨[], rest, by simp [hp]⟩
      | cons h2 t2 =>
        rw [hr] at hp
        rcases List.mem_cons.mp hp with rfl | hmem
        · rcases splitOnChar_head sep rest h2 t2 hr with ⟨r, hr2⟩
          exact ⟨[], r, by simp [hr2]⟩
        · rcases ih p (hr ▸ List.mem_cons_of_mem h2 hmem) with ⟨l, r, hrest⟩
          exact ⟨c :: l, r, by simp [hrest]⟩

theorem dictLookup_dictInsert_self {α : Type} (k : List Char) (v : α)
    (d : List (List Char × α)) : dictLookup (dictInsert k v d) k = some v := by
  induction d with
  | nil =>
    simp [dictInsert, dictLookup]
  | cons p rest ih =>
    obtain ⟨k2, v2⟩ := p
    by_cases hk : k2 = k
    · simp [dictInsert, dictLookup, hk]
    · simp [dictInsert, dictLookup, hk, ih]

theorem dictLookup_dictInsert_other {α : Type} (k k2 : List Char) (v : α)
    (d : List (List Char × α)) (hne : k ≠ k2) :
    dictLookup (dictInsert k v d) k2 = dictLookup d k2 := by
  induction d with
  | nil =>
    simp [dictInsert, dictLookup, hne]
  | cons p rest ih =>
    obtain ⟨k3, v3⟩ := p
    by_cases hk : k3 = k
    · subst hk
      simp [dictInsert, dictLookup, hne]
    · by_cases hk2 : k3 = k2
      · subst hk2
        simp [dictInsert, dictLookup, hk]
      · simp [dictInsert, dictLookup, hk, hk2, ih]

/-! ## Lemmas about the scan-loop skeleton -/

theorem runScan_append {σ : Type} (sc : TsFile → Bool) (upd : TsFile → List Char → σ → σ) :
    ∀ (xs ys : List TsFile) (st : σ × Nat),
      runScan sc upd (xs ++ ys) st = runScan sc upd ys (runScan sc upd xs st) := by
  intro xs
  induction xs with
  | nil =>
    intro ys st
    rfl
  | cons f fs ih =>
    intro ys st
    obtain ⟨tbl, w⟩ := st
    by_cases hf : sc f = true
    · cases hc : f.content with
      | some c =>
        simp [runScan, hf, hc, ih]
      | none =>
        simp [runScan, hf, hc, ih]
    · simp [runScan, hf, ih]

theorem runScan_warn_shift {σ : Type} (sc : TsFile → Bool) (upd : TsFile → List Char → σ → σ) :
    ∀ (fs : List TsFile) (tbl : σ) (w : Nat),
      runScan sc upd fs (tbl, w) =
        ((runScan sc upd fs (tbl, 0)).1, w + (runScan sc upd fs (tbl, 0)).2) := by
  intro fs
  induction fs with
  | nil =>
    intro tbl w
    rfl
  | cons f rest ih =>
    intro tbl w
    by_cases hf : sc f = true
    · cases hc : f.content with
      | some c =>
        simp only [runScan, hf, hc, if_pos]
        exact ih (upd f c tbl) w
      | none =>
        simp only [runScan, hf, hc, if_pos]
        rw [ih tbl (w + 1), ih tbl 1]
        exact Prod.ext rfl (by omega)
    · simp only [runScan]
      rw [if_neg hf, if_neg hf]
      exact ih tbl w

theorem runScan_failing {σ : Type} (sc : TsFile → Bool) (upd : TsFile → List Char → σ → σ)
    (f : TsFile) (hf : sc f = true) (hc : f.content = none) :
    ∀ (xs ys : List TsFile) (st : σ × Nat),
      runScan sc upd (xs ++ f :: ys) st =
        ((runScan sc upd (xs ++ ys) st).1, (runScan sc upd (xs ++ ys) st).2 + 1) := by
  intro xs ys st
  rw [runScan_append, runScan_append]
  obtain ⟨tbl, w⟩ := runScan sc upd xs st
  simp only [runScan, hf, hc, if_pos]
  rw [runScan_warn_shift sc upd ys tbl (w + 1), runScan_warn_shift sc upd ys tbl w]
  exact Prod.ext rfl (by omega)

theorem runScan_lookup_preserve {α : Type} (sc : TsFile → Bool)
    (keyF : TsFile → List Char → List Char) (valF : TsFile → List Char → α) (n : List Char) :
    ∀ (fs : List TsFile) (tbl : List (List Char × α)) (w : Nat),
      (∀ g ∈ fs, sc g = true → ∀ d, g.content = some d → keyF g d ≠ n) →
      dictLookup
        (runScan sc (fun f c t => dictInsert (keyF f c) (valF f c) t) fs (tbl, w)).1 n =
        dictLookup tbl n := by
  intro fs
  induction fs with
  | nil =>
    intro tbl w h
    rfl
  | cons f rest ih =>
    intro tbl w h
    by_cases hf : sc f = true
    · cases hc : f.content with
      | some c =>
        simp only [runScan, hf, hc, if_pos]
        rw [ih _ _ (fun g hg => h g (List.mem_cons_of_mem f hg))]
        exact dictLookup_dictInsert_other _ _ _ _ (h f (List.mem_cons_self f rest) hf c hc)
      | none =>
        simp only [runScan, hf, hc, if_pos]
        exact ih _ _ (fun g hg => h g (List.mem_cons_of_mem f hg))
    · simp only [runScan]
      rw [if_neg hf]
      exact ih _ _ (fun g hg => h g (List.mem_cons_of_mem f hg))

theorem runScan_lookup_last {α : Type} (sc : TsFile → Bool)
    (keyF : TsFile → List Char → List Char) (valF : TsFile → List Char → α)
    (f : TsFile) (c : List Char) (n : List Char)
    (hf : sc f = true) (hc : f.content = some c) (hk : keyF f c = n) :
    ∀ (xs zs : List TsFile) (st : List (List Char × α) × Nat),
      (∀ g ∈ zs, sc g = true → ∀ d, g.content = some d → keyF g d ≠ n) →
      dictLookup
        (runScan sc (fun f c t => dictInsert (keyF f c) (valF f c) t) (xs ++ f :: zs) st).1 n =
        some (valF f c) := by
  intro xs zs st hz
  rw [runScan_append]
  obtain ⟨tbl, w⟩ := runScan sc (fun f c t => dictInsert (keyF f c) (valF f c) t) xs st
  simp only [runScan, hf, hc, if_pos]
  rw [runScan_lookup_preserve sc keyF valF n zs _ _ hz]
  subst hk
  exact dictLookup_dictInsert_self _ _ _

/-! ## Lemmas about scanner captures -/

theorem takeClass1_mem (p : Char → Bool) (s w r : List Char)
    (h : takeClass1 p s = some (w, r)) : ∀ c ∈ w, p c = true := by
  unfold takeClass1 at h
  by_cases he : (s.takeWhile p).isEmpty
  · simp [he] at h
  · simp only [he, if_neg, Bool.false_eq_true, not_false_eq_true, if_false,
      Option.some.injEq, Prod.mk.injEq] at h
    intro c hc
    rw [← h.1] at hc
    exact List.mem_takeWhile_imp hc

theorem matchVarCallAt_word (var s m rest : List Char)
    (h : matchVarCallAt var s = some (m, rest)) : ∀ c ∈ m, isWordChar c = true := by
  unfold matchVarCallAt at h
  cases h1 : dropLit var s with
  | none => rw [h1] at h; exact absurd h (by simp)
  | some s1 =>
    rw [h1] at h
    simp only [Option.bind_eq_bind, Option.some_bind] at h
    cases h2 : dropLit ['.'] s1 with
    | none => rw [h2] at h; exact absurd h (by simp)
    | some s2 =>
      rw [h2] at h
      simp only [Option.bind_eq_bind, Option.some_bind] at h
      cases h3 : takeWord1 s2 with
      | none => rw [h3] at h; exact absurd h (by simp)
      | some p =>
        obtain ⟨w, s3⟩ := p
        rw [h3] at h
        simp only [Option.bind_eq_bind, Option.some_bind] at h
        cases h4 : dropLit ['('] (dropSpacesZ s3) with
        | none => rw [h4] at h; exact absurd h (by simp)
        | some s5 =>
          rw [h4] at h
          simp only [Option.bind_eq_bind, Option.some_bind, Option.some.injEq,
            Prod.mk.injEq, pure] at h
          intro c hc
          exact takeClass1_mem isWordChar s2 w s3 h3 c (h.1 ▸ hc)

theorem scanPos_mem {α : Type} (matchAt : List Char → Option (α × List Char)) (P : α → Prop)
    (hP : ∀ s a rest, matchAt s = some (a, rest) → P a) :
    ∀ (fuel : Nat) (s : List Char) (a : α), a ∈ scanPos matchAt fuel s → P a := by
  intro fuel
  induction fuel with
  | zero =>
    intro s a ha
    simp [scanPos] at ha
  | succ fuel ih =>
    intro s a ha
    cases s with
    | nil => simp [scanPos] at ha
    | cons c t =>
      rw [scanPos] at ha
      cases hm : matchAt (c :: t) with
      | none =>
        rw [hm] at ha
        exact ih t a ha
      | some pr =>
        obtain ⟨b, rest⟩ := pr
        rw [hm] at ha
        rcases List.mem_cons.mp ha with rfl | ha2
        · exact hP (c :: t) a rest hm
        · exact ih rest a ha2

theorem matchVarCallB_some (var : List Char) (prev : Option Char) (s m rest : List Char)
    (h : matchVarCallB var prev s = some (m, rest)) :
    matchVarCallAt var s = some (m, rest) := by
  cases prev with
  | none => exact h
  | some p =>
    have h2 : (if isWordChar p = true then none else matchVarCallAt var s) = some (m, rest) := h
    by_cases hp : isWordChar p = true
    · rw [if_pos hp] at h2
      cases h2
    · rw [if_neg hp] at h2
      exact h2

theorem scanVarCalls_mem (var : List Char) :
    ∀ (fuel : Nat) (prev : Option Char) (s m : List Char),
      m ∈ scanVarCalls var fuel prev s → ∀ c ∈ m, isWordChar c = true := by
  intro fuel
  induction fuel with
  | zero =>
    intro prev s m hm
    simp [scanVarCalls] at hm
  | succ fuel ih =>
    intro prev s m hm
    cases s with
    | nil => simp [scanVarCalls] at hm
    | cons c0 t =>
      rw [scanVarCalls] at hm
      cases hb : matchVarCallB var prev (c0 :: t) with
      | none =>
        rw [hb] at hm
        exact ih _ _ _ hm
      | some pr =>
        obtain ⟨mm, rest⟩ := pr
        rw [hb] at hm
        rcases List.mem_cons.mp hm with rfl | hm2
        · exact matchVarCallAt_word var (c0 :: t) m rest (matchVarCallB_some var prev _ m rest hb)
        · exact ih _ _ _ hm2

theorem matchThisCallAt_word (var s m rest : List Char)
    (h : matchThisCallAt var s = some (m, rest)) : ∀ c ∈ m, isWordChar c = true := by
  unfold matchThisCallAt at h
  cases h1 : dropLit "this.".data s with
  | none => rw [h1] at h; exact absurd h (by simp)
  | some s1 =>
    rw [h1] at h
    simp only [Option.bind_eq_bind, Option.some_bind] at h
    exact matchVarCallAt_word var s1 m rest h

/-- Every capture of the service-call scanners consists of word characters
only; in particular it contains no space. -/
theorem extract_service_calls_captures (content path : List Char) (r : ServiceCall)
    (hr : r ∈ extract_service_calls content path) :
    r.call_type = "direct".data ∧ ∀ c ∈ r.method_name, isWordChar c = true := by
  unfold extract_service_calls at hr
  rcases List.mem_flatMap.mp hr with ⟨ln, -, hr2⟩
  rcases List.mem_flatMap.mp hr2 with ⟨sv, -, hr3⟩
  rcases List.mem_map.mp hr3 with ⟨m, hm, rfl⟩
  refine ⟨rfl, ?_⟩
  rcases List.mem_append.mp hm with h1 | h2
  · exact scanVarCalls_mem sv.1 ln.2.length none ln.2 m h1
  · exact scanPos_mem (matchThisCallAt sv.1) (fun a => ∀ c ∈ a, isWordChar c = true)
      (fun s a rest h => matchThisCallAt_word sv.1 s a rest h) ln.2.length ln.2 m h2

theorem wordOnly_not_networkHop (s : List Char) (hw : ∀ c ∈ s, isWordChar c = true) :
    isNetworkHopStr s = false := by
  cases hb : isNetworkHopStr s
  · rfl
  · exfalso
    rcases List.any_eq_true.mp hb with ⟨v, -, hbeg⟩
    have hsp : ' ' ∈ s :=
      mem_of_begWith hbeg ' ' (List.mem_append_right v (List.mem_singleton_self ' '))
    have hcontra := hw ' ' hsp
    exact absurd hcontra (by decide)

theorem pickVerb_mem (s v r : List Char) (h : pickVerb s = some (v, r)) :
    v ∈ ["get".data, "post".data, "put".data, "delete".data, "patch".data] := by
  unfold pickVerb at h
  cases h1 : dropLit "get".data s with
  | some r1 =>
    simp only [h1, Option.some.injEq, Prod.mk.injEq] at h
    rw [← h.1]
    simp
  | none =>
    simp only [h1] at h
    cases h2 : dropLit "post".data s with
    | some r1 =>
      simp only [h2, Option.some.injEq, Prod.mk.injEq] at h
      rw [← h.1]
      simp
    | none =>
      simp only [h2] at h
      cases h3 : dropLit "put".data s with
      | some r1 =>
        simp only [h3, Option.some.injEq, Prod.mk.injEq] at h
        rw [← h.1]
        simp
      | none =>
        simp only [h3] at h
        cases h4 : dropLit "delete".data s with
        | some r1 =>
          simp only [h4, Option.some.injEq, Prod.mk.injEq] at h
          rw [← h.1]
          simp
        | none =>
          simp only [h4] at h
          cases h5 : dropLit "patch".data s with
          | some r1 =>
            simp only [h5, Option.some.injEq, Prod.mk.injEq] at h
            rw [← h.1]
            simp
          | none =>
            simp only [h5] at h
            exact absurd h (by simp)

theorem matchHttpCore_verb (s : List Char) (verb url rest : List Char)
    (h : matchHttpCore s = some ((verb, url), rest)) :
    verb ∈ ["get".data, "post".data, "put".data, "delete".data, "patch".data] := by
  unfold matchHttpCore at h
  cases h1 : dropLit "http.".data s with
  | none => rw [h1] at h; exact absurd h (by simp)
  | some s1 =>
    rw [h1] at h
    simp only [Option.bind_eq_bind, Option.some_bind] at h
    cases h2 : pickVerb s1 with
    | none => rw [h2] at h; exact absurd h (by simp)
    | some p =>
      obtain ⟨v, s2⟩ := p
      rw [h2] at h
      simp only [Option.bind_eq_bind, Option.some_bind] at h
      cases h3 : matchQuotedUrl s2 with
      | none => rw [h3] at h; exact absurd h (by simp)
      | some p2 =>
        obtain ⟨u, s3⟩ := p2
        rw [h3] at h
        simp only [Option.bind_eq_bind, Option.some_bind, pure, Option.some.injEq,
          Prod.mk.injEq] at h
        rw [← h.1.1]
        exact pickVerb_mem s1 v s2 h2

theorem matchHttpThisAt_verb (s : List Char) (verb url rest : List Char)
    (h : matchHttpThisAt s = some ((verb, url), rest)) :
    verb ∈ ["get".data, "post".data, "put".data, "delete".data, "patch".data] := by
  unfold matchHttpThisAt at h
  cases h1 : dropLit "this.".data s with
  | none => rw [h1] at h; exact absurd h (by simp)
  | some s1 =>
    rw [h1] at h
    simp only [Option.bind_eq_bind, Option.some_bind] at h
    exact matchHttpCore_verb s1 verb url rest h

/-- Every http call the service extractor records carries one of the five
uppercased verbs. -/
theorem extract_http_calls_verb (content : List Char) (hc : HttpCall)
    (h : hc ∈ extract_http_calls content) :
    hc.method ∈ ["GET".data, "POST".data, "PUT".data, "DELETE".data, "PATCH".data] := by
  unfold extract_http_calls at h
  rcases List.mem_flatMap.mp h with ⟨ln, -, h2⟩
  rcases List.mem_map.mp h2 with ⟨p, hp, rfl⟩
  have hv : p.1 ∈ ["get".data, "post".data, "put".data, "delete".data, "patch".data] := by
    rcases List.mem_append.mp hp with h1 | h1
    · exact scanPos_mem matchHttpThisAt
        (fun a => a.1 ∈ ["get".data, "post".data, "put".data, "delete".data, "patch".data])
        (fun s a rest hm => matchHttpThisAt_verb s a.1 a.2 rest hm) ln.2.length ln.2 p h1
    · exact scanPos_mem matchHttpCore
        (fun a => a.1 ∈ ["get".data, "post".data, "put".data, "delete".data, "patch".data])
        (fun s a rest hm => matchHttpCore_verb s a.1 a.2 rest hm) ln.2.length ln.2 p h1
  have hu : upperStr p.1 ∈ ["GET".data, "POST".data, "PUT".data, "DELETE".data,
      "PATCH".data] := by
    simp only [List.mem_cons, List.not_mem_nil, or_false] at hv
    rcases hv with hv | hv | hv | hv | hv <;> rw [hv] <;> decide
  exact hu

/-- Shape of the records `_find_indirect_calls` emits. -/
theorem find_indirect_calls_shape (services : List (List Char × ServiceInfo))
    (comp : AngularScreen) (r : ServiceCall) (hr : r ∈ find_indirect_calls services comp) :
    r.call_type = "indirect".data ∧
      ∃ dc ∈ comp.service_calls, ∃ info,
        dictLookup services dc.service_name = some info ∧
          ∃ hcall ∈ info.http_calls,
            r.service_name = dc.service_name ++ '.' :: dc.method_name ∧
              r.method_name = hcall.method ++ ' ' :: hcall.url := by
  unfold find_indirect_calls at hr
  rcases List.mem_flatMap.mp hr with ⟨dc, hdc, hr2⟩
  cases hl : dictLookup services dc.service_name with
  | none =>
    rw [hl] at hr2
    exact absurd hr2 (by simp)
  | some info =>
    rw [hl] at hr2
    rcases List.mem_map.mp hr2 with ⟨hcall, hhc, rfl⟩
    exact ⟨rfl, dc, hdc, info, hl, hcall, hhc, rfl, rfl⟩

/-! ## Lemmas about the declaration search and the matcher -/

theorem searchDecl_first :
    ∀ (k : Nat) (s : List Char) (n : List Char),
      matchDeclAt (s.drop k) = some n →
      (∀ j, j < k → matchDeclAt (s.drop j) = none) →
      searchDecl s = some n := by
  intro k
  induction k with
  | zero =>
    intro s n hk hmin
    rw [List.drop_zero] at hk
    cases s with
    | nil =>
      have hnil : matchDeclAt ([] : List Char) = none := by decide
      rw [hnil] at hk
      exact Option.noConfusion hk
    | cons c t =>
      rw [searchDecl, hk]
  | succ k ih =>
    intro s n hk hmin
    have h0 : matchDeclAt s = none := by
      have h := hmin 0 (Nat.succ_pos k)
      rwa [List.drop_zero] at h
    cases s with
    | nil =>
      rw [List.drop_nil] at hk
      have hnil : matchDeclAt ([] : List Char) = none := by decide
      rw [hnil] at hk
      exact Option.noConfusion hk
    | cons c t =>
      rw [searchDecl, h0]
      exact ih t n (by rwa [List.drop_succ_cons] at hk)
        (fun j hj => by
          have h := hmin (j + 1) (Nat.succ_lt_succ hj)
          rwa [List.drop_succ_cons] at h)

theorem findMethodMatch_isSome (cname : List Char) (parts : List (List Char)) :
    ∀ ms : List CSharpMethod,
      (findMethodMatch cname parts ms).isSome = true ↔
        ∃ m ∈ ms,
          (parts.any fun part => containsSub (lowerStr part) (lowerStr m.method_name)) =
            true := by
  intro ms
  induction ms with
  | nil => simp [findMethodMatch]
  | cons m rest ih =>
    constructor
    · intro h
      by_cases hm :
          (parts.any fun part => containsSub (lowerStr part) (lowerStr m.method_name)) = true
      · exact ⟨m, List.mem_cons_self m rest, hm⟩
      · unfold findMethodMatch at h
        rw [if_neg hm] at h
        rcases ih.mp h with ⟨m2, hm2, hp⟩
        exact ⟨m2, List.mem_cons_of_mem m hm2, hp⟩
    · rintro ⟨m2, hm2, hp⟩
      unfold findMethodMatch
      by_cases hm :
          (parts.any fun part => containsSub (lowerStr part) (lowerStr m.method_name)) = true
      · rw [if_pos hm]
        rfl
      · rw [if_neg hm]
        rcases List.mem_cons.mp hm2 with rfl | hmem
        · exact absurd hp hm
        · exact ih.mpr ⟨m2, hmem, hp⟩

theorem findClassMatch_isSome (parts : List (List Char)) :
    ∀ tbl : List (List Char × List CSharpMethod),
      (findClassMatch parts tbl).isSome = true ↔
        ∃ e ∈ tbl, containsSub "controller".data (lowerStr e.1) = true ∧
          ∃ m ∈ e.2,
            (parts.any fun part => containsSub (lowerStr part) (lowerStr m.method_name)) =
              true := by
  intro tbl
  induction tbl with
  | nil => simp [findClassMatch]
  | cons e rest ih =>
    obtain ⟨cname, ms⟩ := e
    constructor
    · intro h
      unfold findClassMatch at h
      by_cases hc : containsSub "controller".data (lowerStr cname) = true
      · rw [if_pos hc] at h
        cases hf : findMethodMatch cname parts ms with
        | some r =>
          have hs : (findMethodMatch cname parts ms).isSome = true := by
            rw [hf]
            rfl
          rcases (findMethodMatch_isSome cname parts ms).mp hs with ⟨m, hm, hp⟩
          exact ⟨(cname, ms), List.mem_cons_self _ _, hc, m, hm, hp⟩
        | none =>
          rw [hf] at h
          rcases ih.mp h with ⟨e2, he2, hc2, hm⟩
          exact ⟨e2, List.mem_cons_of_mem _ he2, hc2, hm⟩
      · rw [if_neg hc] at h
        rcases ih.mp h with ⟨e2, he2, hc2, hm⟩
        exact ⟨e2, List.mem_cons_of_mem _ he2, hc2, hm⟩
    · rintro ⟨e2, he2, hc2, m, hm, hp⟩
      unfold findClassMatch
      rcases List.mem_cons.mp he2 with rfl | hmem
      · rw [if_pos hc2]
        have hs : (findMethodMatch cname parts ms).isSome = true :=
          (findMethodMatch_isSome cname parts ms).mpr ⟨m, hm, hp⟩
        cases hf : findMethodMatch cname parts ms with
        | some r =>
          rfl
        | none =>
          rw [hf] at hs
          exact absurd hs (by simp)
      · by_cases hc : containsSub "controller".data (lowerStr cname) = true
        · rw [if_pos hc]
          cases hf : findMethodMatch cname parts ms with
          | some r =>
            rfl
          | none =>
            exact ih.mpr ⟨e2, hmem, hc2, m, hm, hp⟩
        · rw [if_neg hc]
          exact ih.mpr ⟨e2, hmem, hc2, m, hm, hp⟩

theorem urlParts_infix (url p : List Char) (hp : p ∈ urlParts url) :
    ∃ l r, url = l ++ p ++ r := by
  unfold urlParts at hp
  exact mem_splitOnChar '/' url p (List.mem_filter.mp hp).1

theorem route_match_self_aux (url p : List Char) (hp : p ∈ urlParts url) :
    containsSub (lowerStr p) (lowerStr url) = true := by
  rcases urlParts_infix url p hp with ⟨l, r, hurl⟩
  rw [containsSub_iff]
  exact ⟨lowerStr l, lowerStr r, by simp [hurl, lowerStr]⟩

/-! ## Claim theorems -/

/-- C1 counterexample: the claim's normalize-and-compare characterization is
false on the code.  With call path `/{id}` and route template `{id}`, the
spec-side predicate matches (both normalize to the wildcard `*`), and with
call path `/orders` against template `orders` bound to `OrdersController.Create`
it also matches; but the source's matching operation ignores route templates
entirely — it returns false on the first pair and finds no method on the
second, because placeholder segments are discarded and `orders` is not a
substring of the method name `create`. -/
theorem C1_counterexample :
    spec_matches "/\x7bid\x7d".data "\x7bid\x7d".data = true ∧
    route_match "/\x7bid\x7d".data "\x7bid\x7d".data = false ∧
    spec_matches "/orders".data "orders".data = true ∧
    find_matching_csharp_method demoCsharp "/orders".data "POST".data = none := by
  decide

/-- C1 amended: the route-matching operation declares a match iff some
nonempty slash-segment of the call path that does not start with `{`, after
case-folding, occurs as a substring of the case-folded backend method name;
table-level matching succeeds iff some class whose lowercased name contains
`controller` has a method passing that test.  No route template is normalized
or compared. -/
theorem route_match_characterization :
    (∀ url name : List Char,
      route_match url name = true ↔
        ∃ p l r, p ∈ splitOnChar '/' url ∧ p ≠ [] ∧ p.headD ' ' ≠ lbraceC ∧
          lowerStr name = l ++ lowerStr p ++ r) ∧
    (∀ (tbl : List (List Char × List CSharpMethod)) (url m : List Char),
      (find_matching_csharp_method tbl url m).isSome = true ↔
        ∃ cname ms meth, (cname, ms) ∈ tbl ∧
          containsSub "controller".data (lowerStr cname) = true ∧
          meth ∈ ms ∧ route_match url meth.method_name = true) := by
  constructor
  · intro url name
    unfold route_match urlParts
    rw [List.any_eq_true]
    constructor
    · rintro ⟨p, hp, hc⟩
      have hmem := (List.mem_filter.mp hp).1
      have hcond := (List.mem_filter.mp hp).2
      simp only [Bool.and_eq_true, Bool.not_eq_true'] at hcond
      have hne : p ≠ [] := by
        intro h
        rw [h] at hcond
        simp at hcond
      have hhd : p.headD ' ' ≠ lbraceC := of_decide_eq_false hcond.2
      rcases (containsSub_iff _ _).mp hc with ⟨l, r, heq⟩
      exact ⟨p, l, r, hmem, hne, hhd, heq⟩
    · rintro ⟨p, l, r, hmem, hne, hhd, heq⟩
      refine ⟨p, List.mem_filter.mpr ⟨hmem, ?_⟩, ?_⟩
      · simp only [Bool.and_eq_true, Bool.not_eq_true']
        constructor
        · simpa using hne
        · exact decide_eq_false hhd
      · exact (containsSub_iff _ _).mpr ⟨l, r, heq⟩
  · intro tbl url m
    rw [show find_matching_csharp_method tbl url m = findClassMatch (urlParts url) tbl from rfl]
    rw [findClassMatch_isSome]
    constructor
    · rintro ⟨e, he, hc, meth, hm, hp⟩
      obtain ⟨cname, ms⟩ := e
      exact ⟨cname, ms, meth, he, hc, hm, hp⟩
    · rintro ⟨cname, ms, meth, he, hc, hm, hp⟩
      exact ⟨(cname, ms), he, hc, meth, hm, hp⟩

/-- C5 counterexample: the matching operation is not symmetric —
`matches("users", "GetUsers")` holds (the segment `users` is a substring of
`getusers`) while `matches("GetUsers", "users")` fails. -/
theorem C5_counterexample :
    route_match "users".data "GetUsers".data = true ∧
    route_match "GetUsers".data "users".data = false := by
  decide

/-- C5 amended: symmetry fails in general; on identical arguments the
operation succeeds exactly when the call path has at least one nonempty
segment not starting with `{`. -/
theorem route_match_self_iff (a : List Char) :
    route_match a a = true ↔ urlParts a ≠ [] := by
  constructor
  · intro h
    rcases List.any_eq_true.mp h with ⟨p, hp, -⟩
    exact List.ne_nil_of_mem hp
  · intro h
    rcases List.exists_mem_of_ne_nil _ h with ⟨p, hp⟩
    exact List.any_eq_true.mpr ⟨p, hp, route_match_self_aux a p hp⟩

/-- C2: with `max_depth = 0` the resolver still emits the indirect record for
the OrderScreen scenario — one collaborator-invocation hop before the network
call, i.e. depth 1 > 0 — and the whole output is identical to the run with
`max_depth = 10`: the stored `max_depth` is never consulted. -/
theorem max_depth_zero_still_emits_indirect :
    (build_call_mappings (demoState 0)).components.map (fun p => p.2.indirect_calls) =
      [[demoIndirectRecord]] ∧
    build_call_mappings (demoState 0) = build_call_mappings (demoState 10) := by
  decide

/-- C3 counterexample: in the OrderScreen scenario the emitted record tagged
`direct` has zero network-call hops and one collaborator-invocation hop in its
chain — the claim requires exactly one network hop and zero collaborator hops
for the `direct` tag. -/
theorem C3_counterexample :
    (build_call_mappings (demoState 10)).components.map
        (fun p => p.2.direct_calls.map
          (fun r => (r.call_type, networkHops (chainOfDirect p.1 r),
            uiCollabHops (chainOfDirect p.1 r)))) =
      [[("direct".data, 0, 1)]] := by
  decide

/-- C3 amended: the tag records provenance, not hop counts.  Every record the
component extractor emits is tagged `direct` and its method name is never a
network hop (it is a bare collaborator method); every record the indirect
expansion emits is tagged `indirect` and its method name is `VERB url` for a
recorded http call of the invoked service; and every recorded http verb is one
of the five uppercased verbs. -/
theorem call_type_tags :
    (∀ content path : List Char, ∀ r : ServiceCall,
      r ∈ extract_service_calls content path →
        r.call_type = "direct".data ∧ isNetworkHopStr r.method_name = false) ∧
    (∀ (services : List (List Char × ServiceInfo)) (comp : AngularScreen) (r : ServiceCall),
      r ∈ find_indirect_calls services comp →
        r.call_type = "indirect".data ∧
          ∃ dc ∈ comp.service_calls, ∃ info,
            dictLookup services dc.service_name = some info ∧
              ∃ hcall ∈ info.http_calls,
                r.service_name = dc.service_name ++ '.' :: dc.method_name ∧
                  r.method_name = hcall.method ++ ' ' :: hcall.url) ∧
    (∀ (content : List Char) (hc : HttpCall),
      hc ∈ extract_http_calls content →
        hc.method ∈ ["GET".data, "POST".data, "PUT".data, "DELETE".data, "PATCH".data]) := by
  refine ⟨?_, ?_, ?_⟩
  · intro content path r hr
    have h := extract_service_calls_captures content path r hr
    exact ⟨h.1, wordOnly_not_networkHop r.method_name h.2⟩
  · intro services comp r hr
    exact find_indirect_calls_shape services comp r hr
  · intro content hc h
    exact extract_http_calls_verb content hc h

/-- Witness for `call_type_tags`: the indirect-record conjunct applied to the
OrderScreen scenario. -/
theorem call_type_tags_witness :
    demoIndirectRecord.call_type = "indirect".data ∧
      ∃ dc ∈ demoScreen.service_calls, ∃ info,
        dictLookup demoServices dc.service_name = some info ∧
          ∃ hcall ∈ info.http_calls,
            demoIndirectRecord.service_name = dc.service_name ++ '.' :: dc.method_name ∧
              demoIndirectRecord.method_name = hcall.method ++ ' ' :: hcall.url :=
  call_type_tags.2.1 demoServices demoScreen demoIndirectRecord (by decide)

/-- C4 counterexample: in the OrderScreen scenario no emitted record carries a
backend hop at all — the C# mapping list is empty, because `orders` is not a
substring of the method name `Create`; the claimed chain ending in
`OrdersController.Create` is never produced. -/
theorem C4_counterexample :
    (build_call_mappings (demoState 10)).components.map (fun p => p.2.csharp_mappings) =
      [[]] ∧
    route_match "/orders".data "Create".data = false := by
  decide

/-- C4 amended: the scenario's full output.  Resolution emits exactly one
indirect record — `service_name` `OrderService.submit`, `method_name`
`POST /orders`, no depth field and no backend element — and an empty C#
mapping list, since no `OrdersController` method name contains the segment
`orders`. -/
theorem order_scenario_output :
    build_call_mappings (demoState 10) =
      { summary := { total_components := 1, total_services := 1, total_csharp_classes := 1 },
        components :=
          [("OrderScreen".data,
            { file_path := "app/order-screen.component.ts".data,
              template_path := none,
              direct_calls :=
                [{ service_name := "OrderService".data, method_name := "submit".data,
                   file_path := "app/order-screen.component.ts".data, line_number := 5,
                   call_type := "direct".data }],
              indirect_calls := [demoIndirectRecord],
              csharp_mappings := [] })] } := by
  decide

/-- C6 counterexample: a component file with empty text — no declaration
pattern can match — still yields exactly one entity, named by the filename
fallback, with zero warnings.  The claim requires zero entities. -/
theorem C6_counterexample :
    searchDecl [] = none ∧
    (analyze_angular_components noFsEnv false [emptyTsFile]).1.map Prod.fst =
      ["Foo_BarComponent".data] ∧
    (analyze_angular_components noFsEnv false [emptyTsFile]).2 = 0 := by
  decide

/-- C6 amended: a scanned file whose text matches no declaration still yields
exactly one entity, keyed by the deterministic filename fallback, with no
warning and no exception. -/
theorem no_decl_yields_fallback_entity (env : FsEnv) (inc : Bool) (f : TsFile)
    (c : List Char) (hc : f.content = some c) (hno : searchDecl c = none)
    (hsc : angularScanned inc f = true) :
    (analyze_angular_components env inc [f]).1 =
      [(componentFallbackName f.name, componentScreen env f c)] ∧
    (analyze_angular_components env inc [f]).2 = 0 := by
  have hkey : extract_component_name c f.name = componentFallbackName f.name := by
    unfold extract_component_name
    rw [hno]
  have hrun : analyze_angular_components env inc [f] =
      (componentUpd env f c [], 0) := by
    unfold analyze_angular_components
    simp only [runScan, hsc, hc, if_pos]
  rw [hrun]
  unfold componentUpd
  rw [hkey]
  exact ⟨rfl, rfl⟩

/-- Witness for `no_decl_yields_fallback_entity`: the empty component file. -/
theorem no_decl_fallback_witness :
    (analyze_angular_components noFsEnv false [emptyTsFile]).1 =
      [(componentFallbackName emptyTsFile.name, componentScreen noFsEnv emptyTsFile [])] ∧
    (analyze_angular_components noFsEnv false [emptyTsFile]).2 = 0 :=
  no_decl_yields_fallback_entity noFsEnv false emptyTsFile [] rfl (by decide) (by decide)

/-- C7: the extracted entity name is the capture at the leftmost position
where the declaration regex matches, when one exists; and when no position
matches, the name depends only on the file name (two contents with no match
yield the same name for the same file name). -/
theorem extract_name_first_or_fallback :
    (∀ (content filename : List Char) (k : Nat) (n : List Char),
      matchDeclAt (content.drop k) = some n →
      (∀ j, j < k → matchDeclAt (content.drop j) = none) →
      extract_component_name content filename = n ∧
        extract_service_name content filename = n) ∧
    (∀ c1 c2 filename : List Char,
      searchDecl c1 = none → searchDecl c2 = none →
      extract_component_name c1 filename = extract_component_name c2 filename ∧
        extract_service_name c1 filename = extract_service_name c2 filename) := by
  constructor
  · intro content filename k n hk hmin
    have hs : searchDecl content = some n := searchDecl_first k content n hk hmin
    constructor
    · unfold extract_component_name
      rw [hs]
    · unfold extract_service_name
      rw [hs]
  · intro c1 c2 filename h1 h2
    constructor
    · unfold extract_component_name
      rw [h1, h2]
    · unfold extract_service_name
      rw [h1, h2]

/-- Witness for `extract_name_first_or_fallback`: a declared name is taken
from the first match, and two declaration-free contents share the fallback. -/
theorem extract_name_witness :
    (extract_component_name "export class Foo \x7b".data "a.component.ts".data =
        "Foo".data ∧
      extract_service_name "export class Foo \x7b".data "a.component.ts".data =
        "Foo".data) ∧
    (extract_component_name "abc".data "a.component.ts".data =
        extract_component_name "xyz".data "a.component.ts".data ∧
      extract_service_name "abc".data "a.component.ts".data =
        extract_service_name "xyz".data "a.component.ts".data) :=
  ⟨extract_name_first_or_fallback.1 _ _ 0 _ (by decide)
      (fun j hj => absurd hj (Nat.not_lt_zero j)),
    extract_name_first_or_fallback.2 _ _ _ (by decide) (by decide)⟩

/-- C8: a scanned file whose read fails contributes no table entry, adds
exactly one warning, and the rest of the run is unchanged — in each of the
three per-file loops. -/
theorem failing_file_skipped (env : FsEnv) (inc : Bool) (xs ys : List TsFile)
    (f : TsFile) (hcon : f.content = none) :
    (angularScanned inc f = true →
      analyze_angular_components env inc (xs ++ f :: ys) =
        ((analyze_angular_components env inc (xs ++ ys)).1,
          (analyze_angular_components env inc (xs ++ ys)).2 + 1)) ∧
    (angularScanned inc f = true →
      analyze_angular_services inc (xs ++ f :: ys) =
        ((analyze_angular_services inc (xs ++ ys)).1,
          (analyze_angular_services inc (xs ++ ys)).2 + 1)) ∧
    (csharpScanned inc f = true →
      analyze_csharp_files inc (xs ++ f :: ys) =
        ((analyze_csharp_files inc (xs ++ ys)).1,
          (analyze_csharp_files inc (xs ++ ys)).2 + 1)) := by
  refine ⟨?_, ?_, ?_⟩
  · intro hsc
    exact runScan_failing (angularScanned inc) (componentUpd env) f hsc hcon xs ys ([], 0)
  · intro hsc
    exact runScan_failing (angularScanned inc) serviceUpd f hsc hcon xs ys ([], 0)
  · intro hsc
    exact runScan_failing (csharpScanned inc) csharpUpd f hsc hcon xs ys ([], 0)

/-- Witness for `failing_file_skipped`: one unreadable component file. -/
theorem failing_file_witness :
    analyze_angular_components noFsEnv false ([] ++ badFile :: []) =
      ((analyze_angular_components noFsEnv false ([] ++ [])).1,
        (analyze_angular_components noFsEnv false ([] ++ [])).2 + 1) :=
  (failing_file_skipped noFsEnv false [] [] badFile rfl).1 (by decide)

/-- C9 counterexample: in the backend layer two files declaring the same class
name are merged, not overwritten — after processing both files the table still
holds the earlier file's method `GetA` alongside the later `GetB`, so the
earlier entity is not absent from subsequent resolution. -/
theorem C9_counterexample :
    (analyze_csharp_files false [csFileA, csFileB]).1 =
      [("FooController".data, [getARecord, getBRecord])] ∧
    (analyze_csharp_files false [csFileA, csFileB]).2 = 0 := by
  decide

/-- C9 amended: last-write-wins holds in the two frontend layers — when a
scanned file yields entity name `n` and no later file yields `n`, the lookup
table maps `n` to exactly that file's entity, whatever earlier files
produced.  (In the backend layer, method lists of same-named classes are
concatenated instead; see the counterexample.) -/
theorem frontend_last_write_wins :
    (∀ (env : FsEnv) (inc : Bool) (xs zs : List TsFile) (f : TsFile) (c n : List Char),
      angularScanned inc f = true → f.content = some c →
      extract_component_name c f.name = n →
      (∀ g ∈ zs, angularScanned inc g = true →
        ∀ d, g.content = some d → extract_component_name d g.name ≠ n) →
      dictLookup (analyze_angular_components env inc (xs ++ f :: zs)).1 n =
        some (componentScreen env f c)) ∧
    (∀ (inc : Bool) (xs zs : List TsFile) (f : TsFile) (c n : List Char),
      angularScanned inc f = true → f.content = some c →
      extract_service_name c f.name = n →
      (∀ g ∈ zs, angularScanned inc g = true →
        ∀ d, g.content = some d → extract_service_name d g.name ≠ n) →
      dictLookup (analyze_angular_services inc (xs ++ f :: zs)).1 n =
        some (serviceInfoOf f c)) := by
  constructor
  · intro env inc xs zs f c n hsc hcon hk hz
    exact runScan_lookup_last (angularScanned inc)
      (fun f c => extract_component_name c f.name)
      (fun f c => componentScreen env f c) f c n hsc hcon hk xs zs ([], 0)
      (fun g hg hgsc d hgd => hz g hg hgsc d hgd)
  · intro inc xs zs f c n hsc hcon hk hz
    exact runScan_lookup_last (angularScanned inc)
      (fun f c => extract_service_name c f.name)
      (fun f c => serviceInfoOf f c) f c n hsc hcon hk xs zs ([], 0)
      (fun g hg hgsc d hgd => hz g hg hgsc d hgd)

/-- Witness for `frontend_last_write_wins`: two component files both declaring
`Dup`; the table maps `Dup` to the later file's entity. -/
theorem frontend_last_write_wins_witness :
    dictLookup (analyze_angular_components noFsEnv false ([dupFile1] ++ dupFile2 :: [])).1
        "Dup".data =
      some (componentScreen noFsEnv dupFile2 dupContent2) :=
  frontend_last_write_wins.1 noFsEnv false [dupFile1] [] dupFile2 dupContent2 "Dup".data
    (by decide) rfl (by decide) (fun g hg => absurd hg (List.not_mem_nil g))

/-- C10: the full analysis — components, direct calls, indirect calls, backend
mappings, summary, warnings, and the residual service-mapping table — is
identical for any two values of the configured maximum depth: the stored
`max_depth` never influences the output. -/
theorem analyze_ignores_max_depth (env : FsEnv) (inp : AnalyzerInput) (inc : Bool)
    (d1 d2 : Nat) :
    analyze { max_depth := d1, include_tests := inc } env inp =
      analyze { max_depth := d2, include_tests := inc } env inp := by
  rfl
